import Mathlib

/-!
Shallow embedding of the project-to-consultant matching engine of the
`sust` marketplace (`src/projects.ts`), together with proofs of the
spec's claims about it.

Modelling conventions:
* TypeScript numbers that carry scores, prices and budgets are modelled
  as rationals (`ℚ`); `experience_years` is an `INTEGER NOT NULL` column
  (schema) declared "non-negative integer" by the data model, so it is
  modelled as `ℕ`.
* The D1 database is modelled as an explicit state (`DBState`) holding
  the `projects`, `project_matches` and (read-only) `consultant_profiles`
  tables as lists of rows in insertion order.
* Each data-access function becomes a pure function
  `DBState → ... → DBState × Except String α`: the returned state
  reflects every write issued before a `throw`, and the `Except` value
  is the function's return value or thrown error message.
* `nanoid()` results are passed in as explicit identifier arguments; the
  transition relation (`Step`) constrains them to be fresh, which is the
  guarantee nanoid provides.
* JavaScript strings are modelled by Lean `String`/`List Char` with the
  ASCII reading of `toLowerCase`, `\w` (`[A-Za-z0-9_]`) and `\s`
  (whitespace).
-/

namespace Sust

/-- Project status enumeration of `src/projects.ts` (`Project.status`). -/
inductive PStatus where
  | open_
  | in_progress
  | completed
  | cancelled
deriving DecidableEq, Repr

/-- Match status enumeration of `src/projects.ts` (`ProjectMatch.status`). -/
inductive MStatus where
  | pending
  | accepted
  | rejected
  | completed
deriving DecidableEq, Repr

/-- The status argument of `updateMatchStatus`
(`'accepted' | 'rejected' | 'completed'`). -/
inductive UpdStatus where
  | accepted
  | rejected
  | completed
deriving DecidableEq, Repr

/-- Interpretation of an `updateMatchStatus` argument as a stored status. -/
def UpdStatus.toMStatus : UpdStatus → MStatus
  | .accepted => .accepted
  | .rejected => .rejected
  | .completed => .completed

/-- Row of the `projects` table (`Project` interface in `src/projects.ts`). -/
structure Project where
  id : String
  sme_id : String
  title : String
  description : String
  requirements : String
  budget : Option ℚ
  deadline : Option String
  status : PStatus
  created_at : String
  updated_at : String
deriving DecidableEq, Repr

/-- Row of the `project_matches` table (`ProjectMatch` interface). -/
structure ProjectMatch where
  id : String
  project_id : String
  consultant_id : String
  match_score : ℚ
  status : MStatus
  proposal : Option String
  price : Option ℚ
  created_at : String
  updated_at : String
deriving DecidableEq, Repr

/-- The slice of a `consultant_profiles` row that `generateProjectMatches`
reads (after `JSON.parse` of the `expertise` column); `experience_years`
is an `INTEGER NOT NULL` column, a non-negative integer per the data
model. -/
structure Consultant where
  id : String
  expertise : List String
  experience_years : ℕ
deriving DecidableEq, Repr

/-- The database state: the three tables the matching engine touches,
each as its list of rows in insertion order. -/
structure DBState where
  projects : List Project
  project_matches : List ProjectMatch
  consultants : List Consultant
deriving DecidableEq, Repr

/-! ### Keyword extraction (`extractKeywords`) -/

/-- ASCII model of the JavaScript regex class `\w` (`[A-Za-z0-9_]`). -/
def isWordChar (c : Char) : Bool :=
  c.isAlphanum || c = '_'

/-- Model of the JavaScript regex class `\s` (whitespace). -/
def isSpaceChar (c : Char) : Bool :=
  c.isWhitespace

/-- Splitting on whitespace runs (`split(/\s+/)`), keeping only the
nonempty tokens; `acc` holds the reversed current token.  The only
difference from the JavaScript call is that `split(/\s+/)` can emit
empty-string tokens at the ends, which the caller's length filter
discards anyway. -/
def tokenizeWs : List Char → List Char → List (List Char)
  | [], acc => if acc.isEmpty then [] else [acc.reverse]
  | c :: cs, acc =>
    if isSpaceChar c then
      if acc.isEmpty then tokenizeWs cs [] else acc.reverse :: tokenizeWs cs []
    else
      tokenizeWs cs (c :: acc)

/-- First-occurrence deduplication, the order `[...new Set(words)]`
produces; `seen` accumulates the values already emitted. -/
def dedupFirst : List (List Char) → List (List Char) → List (List Char)
  | _, [] => []
  | seen, a :: as =>
    if a ∈ seen then dedupFirst seen as
    else a :: dedupFirst (a :: seen) as

/-- `extractKeywords` of `src/projects.ts`: lowercase the text, strip
every character that is neither a word character nor whitespace, split
on whitespace runs, keep tokens of length `> 3`, deduplicate. -/
def extractKeywords (text : String) : List String :=
  let cleaned := (text.toList.map Char.toLower).filter
    (fun c => isWordChar c || isSpaceChar c)
  let words := (tokenizeWs cleaned []).filter (fun w => 3 < w.length)
  (dedupFirst [] words).map (fun w => String.mk w)

/-! ### Expertise matching (`calculateExpertiseMatch`) -/

/-- JavaScript `haystack.includes(needle)`: substring containment. -/
def jsIncludes (haystack needle : String) : Bool :=
  haystack.toList.tails.any (fun t => needle.toList.isPrefixOf t)

/-- The inner loop of `calculateExpertiseMatch`: scan the lowercased
expertise tags and stop at the first tag that contains the keyword or is
contained in it (the `break`). -/
def keywordHitsExpertise (lowerExpertise : List String) (keyword : String) : Bool :=
  match lowerExpertise with
  | [] => false
  | e :: es =>
    if jsIncludes e keyword || jsIncludes keyword e then true
    else keywordHitsExpertise es keyword

/-- The outer loop of `calculateExpertiseMatch`: count the keywords that
hit some expertise tag, one count per keyword. -/
def countMatchedKeywords (lowerExpertise : List String) : List String → ℕ
  | [] => 0
  | k :: ks =>
    (if keywordHitsExpertise lowerExpertise k then 1 else 0) +
      countMatchedKeywords lowerExpertise ks

/-- `calculateExpertiseMatch` of `src/projects.ts`: fraction of project
keywords matched by the consultant's lowercased expertise tags, `0` when
there are no keywords. -/
def calculateExpertiseMatch (expertise : List String) (projectKeywords : List String) : ℚ :=
  let lowerExpertise := expertise.map (fun e => String.mk (e.toList.map Char.toLower))
  let matched := countMatchedKeywords lowerExpertise projectKeywords
  if 0 < projectKeywords.length then
    (matched : ℚ) / (projectKeywords.length : ℚ)
  else 0

/-! ### Experience scoring (`calculateExperienceScore`) -/

/-- `calculateExperienceScore` of `src/projects.ts`: the step function
from years of experience to a score. -/
def calculateExperienceScore (experienceYears : ℕ) : ℚ :=
  if 15 ≤ experienceYears then 1
  else if 10 ≤ experienceYears then 9/10
  else if 7 ≤ experienceYears then 8/10
  else if 5 ≤ experienceYears then 7/10
  else if 3 ≤ experienceYears then 6/10
  else if 1 ≤ experienceYears then 1/2
  else 3/10

/-! ### Match ranking and persistence (`generateProjectMatches`) -/

/-- The `{ consultant_id, match_score }` records pushed into the
`matches` array of `generateProjectMatches`. -/
structure RankedCandidate where
  consultant_id : String
  match_score : ℚ
deriving DecidableEq, Repr

/-- The comparator `(a, b) => b.match_score - a.match_score` as an
ordering relation: `a` precedes `b` when `a`'s score is at least `b`'s. -/
def scoreGE (a b : RankedCandidate) : Prop :=
  b.match_score ≤ a.match_score

instance : DecidableRel scoreGE :=
  fun a b => inferInstanceAs (Decidable (b.match_score ≤ a.match_score))

instance : IsTotal RankedCandidate scoreGE :=
  ⟨fun a b => le_total b.match_score a.match_score⟩

instance : IsTrans RankedCandidate scoreGE :=
  ⟨fun _ _ _ h1 h2 => le_trans h2 h1⟩

/-- `Math.round(x * 100) / 100`: round to two decimal places, halves
away from the floor (JavaScript `Math.round` is `⌊x + 1/2⌋`). -/
def round2 (q : ℚ) : ℚ :=
  ((⌊q * 100 + 1/2⌋ : ℤ) : ℚ) / 100

/-- `generateProjectMatches` of `src/projects.ts`, as the list of
`project_matches` rows it inserts: score every consultant
(60 % expertise match, 40 % experience), keep scores `≥ 0.3`, sort
descending with the stable comparator, take the first 10, and build one
`pending` row per retained candidate.  The `nanoid()` of each insertion
is supplied by `matchIds`. -/
def generateProjectMatches (consultants : List Consultant) (project : Project)
    (matchIds : List String) (now : String) : List ProjectMatch :=
  let projectKeywords := extractKeywords
    (project.title ++ " " ++ project.description ++ " " ++ project.requirements)
  let candidates := consultants.filterMap (fun consultant =>
    let expertiseMatch := calculateExpertiseMatch consultant.expertise projectKeywords
    let experienceScore := calculateExperienceScore consultant.experience_years
    let matchScore := expertiseMatch * (6/10) + experienceScore * (4/10)
    if (3 : ℚ)/10 ≤ matchScore then
      some { consultant_id := consultant.id, match_score := round2 matchScore }
    else none)
  let sorted := candidates.insertionSort scoreGE
  let topMatches := sorted.take 10
  (topMatches.zip matchIds).map (fun cm =>
    { id := cm.2, project_id := project.id, consultant_id := cm.1.consultant_id,
      match_score := cm.1.match_score, status := .pending, proposal := none,
      price := none, created_at := now, updated_at := now })

/-! ### Database operations

Each operation returns the post state (reflecting every write issued
before a thrown error) together with its return value or error
message. -/

/-- The non-generated fields of `createProject`'s `projectData`
argument. -/
structure ProjectData where
  title : String
  description : String
  requirements : String
  budget : Option ℚ
  deadline : Option String
deriving DecidableEq, Repr

/-- `createProject` of `src/projects.ts`: insert the project with
status `open`, re-select it, then generate and insert its matches.
`projectId` and `matchIds` stand for the `nanoid()` calls. -/
def createProject (s : DBState) (smeId : String) (projectData : ProjectData)
    (projectId : String) (matchIds : List String) (now : String) :
    DBState × Except String Project :=
  let proj : Project :=
    { id := projectId, sme_id := smeId, title := projectData.title,
      description := projectData.description, requirements := projectData.requirements,
      budget := projectData.budget, deadline := projectData.deadline,
      status := .open_, created_at := now, updated_at := now }
  let s1 := { s with projects := s.projects ++ [proj] }
  match s1.projects.find? (fun p => decide (p.id = projectId)) with
  | none => (s1, .error "Failed to create project")
  | some project =>
    let newMatches := generateProjectMatches s1.consultants project matchIds now
    ({ s1 with project_matches := s1.project_matches ++ newMatches }, .ok project)

/-- The `Partial<Omit<Project, ...>>` argument of `updateProject`: a
field is `none` when absent (`undefined`); for the nullable columns the
inner `Option` is the stored value. -/
structure ProjectPatch where
  title : Option String
  description : Option String
  requirements : Option String
  budget : Option (Option ℚ)
  deadline : Option (Option String)
  status : Option PStatus
deriving DecidableEq, Repr

/-- The dynamic `UPDATE projects SET ...` of `updateProject`: set each
provided field, and always refresh `updated_at`. -/
def applyPatch (patch : ProjectPatch) (now : String) (p : Project) : Project :=
  { p with
    title := patch.title.getD p.title,
    description := patch.description.getD p.description,
    requirements := patch.requirements.getD p.requirements,
    budget := patch.budget.getD p.budget,
    deadline := patch.deadline.getD p.deadline,
    status := patch.status.getD p.status,
    updated_at := now }

/-- `updateProject` of `src/projects.ts`: require a project with the
given id owned by `smeId`, apply the partial update to the rows with
that id, and re-select. -/
def updateProject (s : DBState) (projectId smeId : String) (patch : ProjectPatch)
    (now : String) : DBState × Except String Project :=
  match s.projects.find? (fun p => decide (p.id = projectId ∧ p.sme_id = smeId)) with
  | none => (s, .error "Project not found or you do not have permission to update it")
  | some _ =>
    let projects1 := s.projects.map (fun p =>
      if p.id = projectId then applyPatch patch now p else p)
    let s1 := { s with projects := projects1 }
    match projects1.find? (fun p => decide (p.id = projectId)) with
    | none => (s1, .error "Failed to update project")
    | some updated => (s1, .ok updated)

/-- `deleteProject` of `src/projects.ts`: require ownership, delete the
project's matches, then the project. -/
def deleteProject (s : DBState) (projectId smeId : String) :
    DBState × Except String Bool :=
  match s.projects.find? (fun p => decide (p.id = projectId ∧ p.sme_id = smeId)) with
  | none => (s, .error "Project not found or you do not have permission to delete it")
  | some _ =>
    let s1 := { s with
      project_matches := s.project_matches.filter (fun pm => decide (pm.project_id ≠ projectId)),
      projects := s.projects.filter (fun p => decide (p.id ≠ projectId)) }
    (s1, .ok true)

/-- `submitProposal` of `src/projects.ts`: require a match with the
given id owned by the consultant, require it `pending`, store the
proposal and price on the rows with that id, and re-select. -/
def submitProposal (s : DBState) (matchId consultantId : String)
    (proposal : String) (price : ℚ) (now : String) :
    DBState × Except String ProjectMatch :=
  match s.project_matches.find?
      (fun pm => decide (pm.id = matchId ∧ pm.consultant_id = consultantId)) with
  | none => (s, .error "Match not found or you do not have permission to submit a proposal")
  | some existingMatch =>
    if existingMatch.status ≠ MStatus.pending then
      (s, .error "Cannot submit proposal for a match that is not pending")
    else
      let matches1 := s.project_matches.map (fun pm =>
        if pm.id = matchId then
          { pm with proposal := some proposal, price := some price, updated_at := now }
        else pm)
      let s1 := { s with project_matches := matches1 }
      match matches1.find? (fun pm => decide (pm.id = matchId)) with
      | none => (s1, .error "Failed to update match")
      | some updated => (s1, .ok updated)

/-- `updateMatchStatus` of `src/projects.ts`: require a match with the
given id whose parent project is owned by `smeId` (the SQL join), set
its status unconditionally, then cascade: on `accepted` the parent
project becomes `in_progress` and every *other* still-`pending` match of
the project becomes `rejected`; on `completed` the parent project
becomes `completed`.  Finally re-select the match. -/
def updateMatchStatus (s : DBState) (matchId smeId : String) (status : UpdStatus)
    (now : String) : DBState × Except String ProjectMatch :=
  match s.project_matches.find? (fun pm =>
      decide (pm.id = matchId) &&
        s.projects.any (fun p => decide (p.id = pm.project_id ∧ p.sme_id = smeId))) with
  | none => (s, .error "Match not found or you do not have permission to update it")
  | some existingMatch =>
    let matches1 := s.project_matches.map (fun pm =>
      if pm.id = matchId then { pm with status := status.toMStatus, updated_at := now }
      else pm)
    let projects1 :=
      if status = UpdStatus.accepted then
        s.projects.map (fun p =>
          if p.id = existingMatch.project_id then
            { p with status := .in_progress, updated_at := now }
          else p)
      else if status = UpdStatus.completed then
        s.projects.map (fun p =>
          if p.id = existingMatch.project_id then
            { p with status := .completed, updated_at := now }
          else p)
      else s.projects
    let matches2 :=
      if status = UpdStatus.accepted then
        matches1.map (fun pm =>
          if pm.project_id = existingMatch.project_id ∧ pm.id ≠ matchId ∧
              pm.status = MStatus.pending then
            { pm with status := .rejected, updated_at := now }
          else pm)
      else matches1
    let s1 := { s with projects := projects1, project_matches := matches2 }
    match matches2.find? (fun pm => decide (pm.id = matchId)) with
    | none => (s1, .error "Failed to update match")
    | some updated => (s1, .ok updated)

/-! ### The transition system of the core operations -/

/-- One invocation of a core operation, with the `nanoid()` results it
consumes made explicit. -/
inductive Op where
  | createProject (smeId : String) (projectData : ProjectData)
      (projectId : String) (matchIds : List String) (now : String)
  | updateProject (projectId smeId : String) (patch : ProjectPatch) (now : String)
  | deleteProject (projectId smeId : String)
  | submitProposal (matchId consultantId : String) (proposal : String)
      (price : ℚ) (now : String)
  | updateMatchStatus (matchId smeId : String) (status : UpdStatus) (now : String)

/-- Freshness of the generated identifiers consumed by an operation:
`nanoid()` yields values distinct from every stored id and from each
other, and `createProject` can draw as many as it needs (at most 10
matches are inserted). -/
def idsOk (s : DBState) : Op → Prop
  | .createProject _ _ projectId matchIds _ =>
      projectId ∉ s.projects.map Project.id ∧
      matchIds.Nodup ∧
      (∀ m ∈ matchIds, m ∉ s.project_matches.map ProjectMatch.id) ∧
      10 ≤ matchIds.length
  | _ => True

/-- The state reached by an operation (error or not: writes issued
before a thrown error persist). -/
def applyOp (s : DBState) : Op → DBState
  | .createProject smeId projectData projectId matchIds now =>
      (createProject s smeId projectData projectId matchIds now).1
  | .updateProject projectId smeId patch now =>
      (updateProject s projectId smeId patch now).1
  | .deleteProject projectId smeId =>
      (deleteProject s projectId smeId).1
  | .submitProposal matchId consultantId proposal price now =>
      (submitProposal s matchId consultantId proposal price now).1
  | .updateMatchStatus matchId smeId status now =>
      (updateMatchStatus s matchId smeId status now).1

/-- A transition of the core system: one operation applied with fresh
generated identifiers. -/
def Step (s : DBState) (op : Op) (s' : DBState) : Prop :=
  idsOk s op ∧ s' = applyOp s op

/-- States reachable from an initial state with no projects and no
matches (the consultant pool `cs` is read-only input maintained by the
excluded profiles module). -/
inductive Reachable (cs : List Consultant) : DBState → Prop where
  | init : Reachable cs ⟨[], [], cs⟩
  | step {s : DBState} {op : Op} (hs : Reachable cs s) (hop : idsOk s op) :
      Reachable cs (applyOp s op)

/-! ### Helper lemmas for the keyword pipeline -/

/-- ASCII lowercasing never produces an uppercase ASCII letter. -/
theorem toLower_isUpper_false (c : Char) : (Char.toLower c).isUpper = false := by
  unfold Char.toLower
  by_cases h : c.toNat ≥ 65 ∧ c.toNat ≤ 90
  · rw [if_pos h]
    obtain ⟨h1, h2⟩ := h
    have h1' : 97 ≤ c.toNat + 32 := by omega
    have h2' : c.toNat + 32 ≤ 122 := by omega
    generalize c.toNat + 32 = n at h1' h2'
    interval_cases n <;> decide
  · rw [if_neg h]
    simp only [Char.isUpper, Bool.and_eq_false_iff, decide_eq_false_iff_not]
    rcases not_and_or.mp h with h' | h'
    · exact Or.inl (fun hge => h' hge)
    · exact Or.inr (fun hle => h' hle)

/-- Elements of `dedupFirst seen l` come from `l` and avoid `seen`. -/
theorem mem_dedupFirst {a : List Char} :
    ∀ {seen l : List (List Char)}, a ∈ dedupFirst seen l → a ∈ l ∧ a ∉ seen := by
  intro seen l
  induction l generalizing seen with
  | nil => intro h; simp [dedupFirst] at h
  | cons b bs ih =>
    intro h
    simp only [dedupFirst] at h
    by_cases hb : b ∈ seen
    · rw [if_pos hb] at h
      obtain ⟨h1, h2⟩ := ih h
      exact ⟨List.mem_cons_of_mem _ h1, h2⟩
    · rw [if_neg hb] at h
      rcases List.mem_cons.mp h with rfl | h'
      · exact ⟨List.mem_cons_self _ _, hb⟩
      · obtain ⟨h1, h2⟩ := ih h'
        exact ⟨List.mem_cons_of_mem _ h1, fun hs => h2 (List.mem_cons_of_mem _ hs)⟩

/-- `dedupFirst` produces a duplicate-free list. -/
theorem nodup_dedupFirst (seen l : List (List Char)) : (dedupFirst seen l).Nodup := by
  induction l generalizing seen with
  | nil => simp [dedupFirst]
  | cons b bs ih =>
    simp only [dedupFirst]
    split
    · exact ih seen
    · exact List.Nodup.cons
        (fun hmem => (mem_dedupFirst hmem).2 (List.mem_cons_self b seen))
        (ih (b :: seen))

/-- Characters of `tokenizeWs` tokens come from the input (or the
accumulator) and are never whitespace. -/
theorem tokenizeWs_chars :
    ∀ (l acc : List Char), (∀ c ∈ acc, isSpaceChar c = false) →
      ∀ t ∈ tokenizeWs l acc, ∀ c ∈ t, (c ∈ l ∨ c ∈ acc) ∧ isSpaceChar c = false := by
  intro l
  induction l with
  | nil =>
    intro acc hacc t ht c hc
    simp only [tokenizeWs] at ht
    split at ht
    · simp at ht
    · rcases List.mem_singleton.mp ht with rfl
      have hca : c ∈ acc := List.mem_reverse.mp hc
      exact ⟨Or.inr hca, hacc c hca⟩
  | cons d ds ih =>
    intro acc hacc t ht c hc
    simp only [tokenizeWs] at ht
    by_cases hd : isSpaceChar d = true
    · rw [if_pos hd] at ht
      split at ht
      · obtain ⟨hor, hns⟩ := ih [] (by simp) t ht c hc
        rcases hor with h | h
        · exact ⟨Or.inl (List.mem_cons_of_mem _ h), hns⟩
        · simp at h
      · rcases List.mem_cons.mp ht with rfl | ht'
        · have hca : c ∈ acc := List.mem_reverse.mp hc
          exact ⟨Or.inr hca, hacc c hca⟩
        · obtain ⟨hor, hns⟩ := ih [] (by simp) t ht' c hc
          rcases hor with h | h
          · exact ⟨Or.inl (List.mem_cons_of_mem _ h), hns⟩
          · simp at h
    · rw [if_neg hd] at ht
      have hacc' : ∀ x ∈ (d :: acc), isSpaceChar x = false := by
        intro x hx
        rcases List.mem_cons.mp hx with rfl | hx'
        · simpa using hd
        · exact hacc x hx'
      obtain ⟨hor, hns⟩ := ih (d :: acc) hacc' t ht c hc
      refine ⟨?_, hns⟩
      rcases hor with h | h
      · exact Or.inl (List.mem_cons_of_mem _ h)
      · rcases List.mem_cons.mp h with rfl | h'
        · exact Or.inl (List.mem_cons_self _ _)
        · exact Or.inr h'

/-- **C6.** `extractKeywords` returns a duplicate-free list of tokens of
length at least 4 made of word characters with no uppercase ASCII
letter, and the empty input yields the empty list.  (The function is a
pure function of its input by construction.) -/
theorem extractKeywords_wellformed (text : String) :
    (extractKeywords text).Nodup ∧
    (∀ w ∈ extractKeywords text, 4 ≤ w.length ∧
      ∀ c ∈ w.toList, isWordChar c = true ∧ c.isUpper = false) ∧
    extractKeywords "" = [] := by
  refine ⟨?_, ?_, rfl⟩
  · apply List.Nodup.map
    · exact fun a b h => congrArg String.data h
    · exact nodup_dedupFirst _ _
  · intro w hw
    simp only [extractKeywords] at hw
    obtain ⟨t, ht, rfl⟩ := List.mem_map.mp hw
    obtain ⟨htw, hlen⟩ := List.mem_filter.mp (mem_dedupFirst ht).1
    have hlen' : 3 < t.length := by simpa using hlen
    refine ⟨by simpa [String.length] using hlen', ?_⟩
    intro c hc
    have hct : c ∈ t := hc
    obtain ⟨hor, hns⟩ := tokenizeWs_chars _ [] (by simp) t htw c hct
    have hcc : c ∈ (text.toList.map Char.toLower).filter
        (fun c => isWordChar c || isSpaceChar c) := by
      rcases hor with h | h
      · exact h
      · simp at h
    obtain ⟨hcm, hp⟩ := List.mem_filter.mp hcc
    have hwc : isWordChar c = true := by
      rcases Bool.or_eq_true_iff.mp hp with h | h
      · exact h
      · rw [hns] at h; exact absurd h (by simp)
    obtain ⟨c0, _, rfl⟩ := List.mem_map.mp hcm
    exact ⟨hwc, toLower_isUpper_false c0⟩

/-- Witness for C6 at a concrete input. -/
theorem extractKeywords_wellformed_witness :
    4 ≤ ("hello" : String).length ∧ isWordChar 'h' = true ∧ Char.isUpper 'h' = false := by
  have h := (extractKeywords_wellformed "Hello, hello!").2.1 "hello" (by decide)
  exact ⟨h.1, (h.2 'h' (by decide)).1, (h.2 'h' (by decide)).2⟩

/-! ### C7: the expertise-match fraction -/

/-- Spec-side predicate of §4.2: a keyword is "matched" iff it is a
substring of some lowercased expertise tag or some lowercased tag is a
substring of it. -/
def matchedKeyword (expertise : List String) (keyword : String) : Bool :=
  (expertise.map (fun e => String.mk (e.toList.map Char.toLower))).any
    (fun e => jsIncludes e keyword || jsIncludes keyword e)

/-- The first-hit inner loop decides exactly "some tag matches". -/
theorem keywordHitsExpertise_eq_any (lowerE : List String) (k : String) :
    keywordHitsExpertise lowerE k =
      lowerE.any (fun e => jsIncludes e k || jsIncludes k e) := by
  induction lowerE with
  | nil => rfl
  | cons e es ih =>
    by_cases h : (jsIncludes e k || jsIncludes k e) = true
    · simp [keywordHitsExpertise, h]
    · simp [keywordHitsExpertise, h, ih]

/-- The outer loop counts the matched keywords. -/
theorem countMatchedKeywords_eq_countP (lowerE : List String) (K : List String) :
    countMatchedKeywords lowerE K =
      K.countP (fun k => keywordHitsExpertise lowerE k) := by
  induction K with
  | nil => rfl
  | cons k ks ih =>
    by_cases h : keywordHitsExpertise lowerE k = true
    · simp [countMatchedKeywords, List.countP_cons, h, ih, Nat.add_comm]
    · simp [countMatchedKeywords, List.countP_cons, h, ih]

/-- **C7.** `calculateExpertiseMatch E K` is the number of matched
keywords of `K` (bidirectional substring containment against the
lowercased tags, each keyword counted at most once) divided by `|K|`,
and the empty keyword set scores `0` (no division by zero). -/
theorem calculateExpertiseMatch_eq_matchedFraction (E K : List String) :
    calculateExpertiseMatch E K =
      ((K.countP (matchedKeyword E) : ℚ) / (K.length : ℚ)) ∧
    calculateExpertiseMatch E [] = 0 := by
  constructor
  · simp only [calculateExpertiseMatch, matchedKeyword,
      countMatchedKeywords_eq_countP, keywordHitsExpertise_eq_any]
    split_ifs with h
    · rfl
    · have hK : K = [] := List.length_eq_zero.mp (by omega)
      subst hK
      simp
  · simp [calculateExpertiseMatch]

/-! ### C8: the experience step function -/

/-- **C8.** `calculateExperienceScore` is monotonically non-decreasing,
always lies in `[0.3, 1.0]`, takes the documented values at `0` and
`20`, and follows the step table. -/
theorem calculateExperienceScore_monotone_step :
    (∀ a b : ℕ, a ≤ b → calculateExperienceScore a ≤ calculateExperienceScore b) ∧
    (∀ y : ℕ, 3/10 ≤ calculateExperienceScore y ∧ calculateExperienceScore y ≤ 1) ∧
    calculateExperienceScore 0 = 3/10 ∧
    calculateExperienceScore 20 = 1 ∧
    (∀ y : ℕ,
      (15 ≤ y → calculateExperienceScore y = 1) ∧
      (10 ≤ y → y ≤ 14 → calculateExperienceScore y = 9/10) ∧
      (7 ≤ y → y ≤ 9 → calculateExperienceScore y = 8/10) ∧
      (5 ≤ y → y ≤ 6 → calculateExperienceScore y = 7/10) ∧
      (3 ≤ y → y ≤ 4 → calculateExperienceScore y = 6/10) ∧
      (1 ≤ y → y ≤ 2 → calculateExperienceScore y = 1/2) ∧
      (y = 0 → calculateExperienceScore y = 3/10)) := by
  refine ⟨?_, ?_, by norm_num [calculateExperienceScore],
    by norm_num [calculateExperienceScore], ?_⟩
  · intro a b hab
    unfold calculateExperienceScore
    split_ifs <;> first | (exfalso; omega) | norm_num
  · intro y
    unfold calculateExperienceScore
    split_ifs <;> constructor <;> norm_num
  · intro y
    refine ⟨fun h => ?_, fun h h' => ?_, fun h h' => ?_, fun h h' => ?_,
      fun h h' => ?_, fun h h' => ?_, fun h => ?_⟩ <;>
      (unfold calculateExperienceScore; split_ifs <;> first | (exfalso; omega) | rfl)

/-- Witness for C8 at concrete inputs. -/
theorem calculateExperienceScore_monotone_step_witness :
    3 ≤ 12 ∧ calculateExperienceScore 3 ≤ calculateExperienceScore 12 :=
  ⟨by norm_num, calculateExperienceScore_monotone_step.1 3 12 (by norm_num)⟩

/-! ### C5: the ranked, bounded, thresholded match list -/

/-- Rounding to two decimals (half up) preserves the `0.30` threshold. -/
theorem round2_threshold {q : ℚ} (h : 3/10 ≤ q) : 3/10 ≤ round2 q := by
  unfold round2
  have h30 : (30 : ℤ) ≤ ⌊q * 100 + 1/2⌋ := Int.le_floor.mpr (by push_cast; linarith)
  have h30' : (30 : ℚ) ≤ ((⌊q * 100 + 1/2⌋ : ℤ) : ℚ) := by exact_mod_cast h30
  linarith

/-- The first components of a zip form a sublist of the first list. -/
theorem map_fst_zip_sublist {α β : Type*} (l : List α) (l' : List β) :
    ((l.zip l').map Prod.fst).Sublist l := by
  induction l generalizing l' with
  | nil => simp
  | cons a as ih =>
    cases l' with
    | nil => simp
    | cons b bs =>
      rw [List.zip_cons_cons, List.map_cons]
      exact (ih bs).cons₂ a

/-- **C5.** The persisted match list of `generateProjectMatches` has at
most 10 entries; every entry carries the rounded combined score
`0.6 · expertise + 0.4 · experience` of one of the pool's consultants,
with the unrounded and the stored score both `≥ 0.30`; every entry is
`pending` with proposal and price unset; and the list is sorted by
stored score in descending order. -/
theorem generateProjectMatches_bounded_sorted (consultants : List Consultant)
    (project : Project) (matchIds : List String) (now : String) :
    (generateProjectMatches consultants project matchIds now).length ≤ 10 ∧
    (∀ m ∈ generateProjectMatches consultants project matchIds now,
      3/10 ≤ m.match_score ∧
      (∃ c ∈ consultants, m.consultant_id = c.id ∧
        m.match_score = round2
          (calculateExpertiseMatch c.expertise (extractKeywords
              (project.title ++ " " ++ project.description ++ " " ++ project.requirements)) * (6/10) +
            calculateExperienceScore c.experience_years * (4/10)) ∧
        3/10 ≤ calculateExpertiseMatch c.expertise (extractKeywords
              (project.title ++ " " ++ project.description ++ " " ++ project.requirements)) * (6/10) +
            calculateExperienceScore c.experience_years * (4/10)) ∧
      m.status = .pending ∧ m.proposal = none ∧ m.price = none) ∧
    (generateProjectMatches consultants project matchIds now).Pairwise
      (fun a b => b.match_score ≤ a.match_score) := by
  refine ⟨?_, ?_, ?_⟩
  · simp only [generateProjectMatches, List.length_map, List.length_zip, List.length_take]
    omega
  · intro m hm
    simp only [generateProjectMatches] at hm
    obtain ⟨⟨cand, mid⟩, hpair, rfl⟩ := List.mem_map.mp hm
    have hc1 := (List.of_mem_zip hpair).1
    have hc2 := List.take_subset _ _ hc1
    have hc3 : cand ∈ consultants.filterMap _ :=
      (List.Perm.mem_iff (List.perm_insertionSort scoreGE _)).mp hc2
    obtain ⟨c, hc, hfc⟩ := List.mem_filterMap.mp hc3
    by_cases hth : (3 : ℚ)/10 ≤
        calculateExpertiseMatch c.expertise (extractKeywords
          (project.title ++ " " ++ project.description ++ " " ++ project.requirements)) * (6/10) +
        calculateExperienceScore c.experience_years * (4/10)
    · rw [if_pos hth] at hfc
      obtain rfl := Option.some_injective _ hfc
      exact ⟨round2_threshold hth, ⟨c, hc, rfl, rfl, hth⟩, rfl, rfl, rfl⟩
    · rw [if_neg hth] at hfc
      exact absurd hfc (by simp)
  · simp only [generateProjectMatches]
    refine List.pairwise_map.mpr ?_
    exact (List.pairwise_map.mp (List.Pairwise.sublist (map_fst_zip_sublist _ matchIds)
      (List.Pairwise.sublist (List.take_sublist 10 _)
        (List.sorted_insertionSort scoreGE _)))).imp (fun h => h)

/-- Concrete project used by the C5 witness (its three text fields hold
no token longer than 3 characters). -/
def wProject5 : Project :=
  { id := "p1", sme_id := "s1", title := "Eco", description := "fix",
    requirements := "now", budget := none, deadline := none,
    status := .open_, created_at := "t0", updated_at := "t0" }

/-- The single match row the C5 witness pool generates. -/
def wMatch5 : ProjectMatch :=
  { id := "m1", project_id := "p1", consultant_id := "c1", match_score := 2/5,
    status := .pending, proposal := none, price := none,
    created_at := "t0", updated_at := "t0" }

/-- Evaluation of the match generation of the C5 witness pool. -/
theorem wGen5 :
    generateProjectMatches [{ id := "c1", expertise := [], experience_years := 15 }]
      wProject5 ["m1"] "t0" = [wMatch5] := by
  have hkw : extractKeywords ("Eco" ++ " " ++ "fix" ++ " " ++ "now") = [] := by decide
  have hnil : calculateExpertiseMatch [] [] = 0 := by
    simp [calculateExpertiseMatch]
  have hexp : calculateExperienceScore 15 = 1 := by
    norm_num [calculateExperienceScore]
  have hfl : ⌊(2:ℚ)/5 * 100 + 1/2⌋ = 40 := by
    rw [Int.floor_eq_iff]
    norm_num
  have hr2 : round2 ((2:ℚ)/5) = 2/5 := by
    rw [round2, hfl]
    norm_num
  norm_num [generateProjectMatches, wProject5, wMatch5, hkw, hnil, hexp, hr2,
    List.filterMap_cons, List.insertionSort, List.orderedInsert, List.zip_cons_cons]

/-- Witness for C5 at a concrete pool and project. -/
theorem generateProjectMatches_bounded_sorted_witness :
    3/10 ≤ wMatch5.match_score ∧ wMatch5.status = .pending ∧
      wMatch5.proposal = none ∧ wMatch5.price = none := by
  have h := (generateProjectMatches_bounded_sorted
    [{ id := "c1", expertise := [], experience_years := 15 }]
    wProject5 ["m1"] "t0").2.1 wMatch5 (by rw [wGen5]; exact List.mem_singleton.mpr rfl)
  exact ⟨h.1, h.2.2⟩

/-! ### Helper lemmas for row lookup under unique ids -/

/-- `find?` returns the designated element when it is the only one
satisfying the predicate. -/
theorem find?_eq_some_of_mem_unique {α : Type*} {p : α → Bool} {l : List α} {a : α}
    (ha : a ∈ l) (hpa : p a = true)
    (huniq : ∀ x ∈ l, p x = true → x = a) : l.find? p = some a := by
  cases hfind : l.find? p with
  | none =>
    have := List.find?_eq_none.mp hfind a ha
    exact absurd hpa this
  | some y =>
    have hy := List.find?_some hfind
    have hmy := List.mem_of_find?_eq_some hfind
    rw [huniq y hmy hy]

/-- Two match rows of a table with duplicate-free ids are equal once
their ids agree. -/
theorem match_eq_of_id_eq {l : List ProjectMatch}
    (h : (l.map ProjectMatch.id).Nodup) {a b : ProjectMatch}
    (ha : a ∈ l) (hb : b ∈ l) (hid : a.id = b.id) : a = b :=
  List.inj_on_of_nodup_map h ha hb hid

/-! ### C9: `submitProposal` -/

/-- **C9.** Under duplicate-free match ids, `submitProposal` succeeds
iff a match with the given id exists, belongs to the acting consultant,
and is `pending`; on success it returns the match with proposal text and
price stored and status still `pending`, rewrites exactly that row
(leaving its status and every other row unchanged), and on failure the
state is returned unchanged. -/
theorem submitProposal_spec (s : DBState) (matchId consultantId proposal : String)
    (price : ℚ) (now : String)
    (hnd : (s.project_matches.map ProjectMatch.id).Nodup) :
    ((∃ m', (submitProposal s matchId consultantId proposal price now).2 = .ok m') ↔
      ∃ r ∈ s.project_matches, r.id = matchId ∧ r.consultant_id = consultantId ∧
        r.status = .pending) ∧
    (∀ s' m', submitProposal s matchId consultantId proposal price now = (s', .ok m') →
      m'.id = matchId ∧ m'.consultant_id = consultantId ∧ m'.status = .pending ∧
      m'.proposal = some proposal ∧ m'.price = some price ∧
      s'.projects = s.projects ∧ s'.consultants = s.consultants ∧
      s'.project_matches.length = s.project_matches.length ∧
      (∀ r' ∈ s'.project_matches, ∀ r ∈ s.project_matches, r'.id = r.id →
        r'.status = r.status ∧ r'.project_id = r.project_id ∧
        r'.consultant_id = r.consultant_id ∧ r'.match_score = r.match_score ∧
        (r.id ≠ matchId → r' = r) ∧
        (r.id = matchId → r'.proposal = some proposal ∧ r'.price = some price))) ∧
    (∀ e, (submitProposal s matchId consultantId proposal price now).2 = .error e →
      (submitProposal s matchId consultantId proposal price now).1 = s) := by
  cases hfind : s.project_matches.find?
      (fun pm => decide (pm.id = matchId ∧ pm.consultant_id = consultantId)) with
  | none =>
    have hno : ∀ r ∈ s.project_matches,
        ¬(r.id = matchId ∧ r.consultant_id = consultantId) := by
      intro r hr
      have := List.find?_eq_none.mp hfind r hr
      simpa using this
    refine ⟨?_, ?_, ?_⟩
    · simp only [submitProposal, hfind]
      constructor
      · rintro ⟨m', hm'⟩
        simp at hm'
      · rintro ⟨r, hr, h1, h2, _⟩
        exact absurd ⟨h1, h2⟩ (hno r hr)
    · intro s' m' heq
      simp only [submitProposal, hfind] at heq
      have := congrArg Prod.snd heq
      simp at this
    · intro e _
      simp only [submitProposal, hfind]
  | some em =>
    have hpem : em.id = matchId ∧ em.consultant_id = consultantId := by
      have := List.find?_some hfind
      simpa using this
    have hmem := List.mem_of_find?_eq_some hfind
    by_cases hst : em.status = MStatus.pending
    · -- success path
      have hfind2 :
          (s.project_matches.map (fun pm =>
            if pm.id = matchId then
              { pm with proposal := some proposal, price := some price, updated_at := now }
            else pm)).find? (fun pm => decide (pm.id = matchId)) =
          some { em with proposal := some proposal, price := some price, updated_at := now } := by
        apply find?_eq_some_of_mem_unique
        · refine List.mem_map.mpr ⟨em, hmem, ?_⟩
          rw [if_pos hpem.1]
        · simp [hpem.1]
        · intro x hx hpx
          obtain ⟨r0, hr0, rfl⟩ := List.mem_map.mp hx
          by_cases h0 : r0.id = matchId
          · have : r0 = em := match_eq_of_id_eq hnd hr0 hmem (h0.trans hpem.1.symm)
            subst this
            rw [if_pos h0]
          · rw [if_neg h0] at hpx ⊢
            simp at hpx
            exact absurd hpx h0
      refine ⟨?_, ?_, ?_⟩
      · simp only [submitProposal, hfind, if_neg (not_not_intro hst), hfind2]
        constructor
        · intro _
          exact ⟨em, hmem, hpem.1, hpem.2, hst⟩
        · intro _
          exact ⟨_, rfl⟩
      · intro s' m' heq
        simp only [submitProposal, hfind, if_neg (not_not_intro hst), hfind2,
          Prod.mk.injEq] at heq
        obtain ⟨hs', hm'⟩ := heq
        have hm'' := Except.ok.inj hm'
        subst hs'
        refine ⟨by simp [← hm'', hpem.1], by simp [← hm'', hpem.2],
          by simp [← hm'', hst], by simp [← hm''], by simp [← hm''], rfl, rfl,
          by simp, ?_⟩
        intro r' hr' r hr hid
        obtain ⟨r0, hr0, rfl⟩ := List.mem_map.mp hr'
        have hid0 : r0.id = r.id := by
          by_cases h0 : r0.id = matchId <;> simpa [h0] using hid
        have : r0 = r := match_eq_of_id_eq hnd hr0 hr hid0
        subst this
        by_cases h0 : r0.id = matchId
        · simp [h0]
        · simp [h0]
      · intro e he
        simp only [submitProposal, hfind, if_neg (not_not_intro hst), hfind2] at he
        simp at he
    · -- not pending: validation error
      refine ⟨?_, ?_, ?_⟩
      · simp only [submitProposal, hfind, if_pos (by simpa using hst)]
        constructor
        · rintro ⟨m', hm'⟩
          simp at hm'
        · rintro ⟨r, hr, h1, _, h3⟩
          have : r = em := match_eq_of_id_eq hnd hr hmem (h1.trans hpem.1.symm)
          subst this
          exact absurd h3 hst
      · intro s' m' heq
        simp only [submitProposal, hfind, if_pos (by simpa using hst),
          Prod.mk.injEq] at heq
        exact absurd heq.2 (by simp)
      · intro e _
        simp only [submitProposal, hfind, if_pos (show (em.status ≠ MStatus.pending) from hst)]

/-- A one-project, one-pending-match state owned by SME `s1`, used by
the concrete C9 scenario.  Project fields: id, sme_id, title,
description, requirements, budget, deadline, status, created_at,
updated_at; match fields: id, project_id, consultant_id, match_score,
status, proposal, price, created_at, updated_at. -/
def wState9 : DBState :=
  ⟨[⟨"p1", "s1", "T", "D", "R", none, none, .open_, "t0", "t0"⟩],
   [⟨"m1", "p1", "c1", 1, .pending, none, none, "t0", "t0"⟩],
   []⟩

/-- The post state of the C9 witness call: the proposal and price are
stored on the match, `updated_at` refreshed, status untouched. -/
def wState9' : DBState :=
  ⟨[⟨"p1", "s1", "T", "D", "R", none, none, .open_, "t0", "t0"⟩],
   [⟨"m1", "p1", "c1", 1, .pending, some "offer", some 100, "t0", "t1"⟩],
   []⟩

/-- The match returned by the C9 witness call. -/
def wMatch9 : ProjectMatch :=
  ⟨"m1", "p1", "c1", 1, .pending, some "offer", some 100, "t0", "t1"⟩

/-- Witness for C9 at a concrete state. -/
theorem submitProposal_spec_witness :
    wMatch9.proposal = some "offer" ∧ wMatch9.price = some 100 ∧
      wMatch9.status = .pending := by
  have h := (submitProposal_spec wState9 "m1" "c1" "offer" 100 "t1"
    (by simp [wState9])).2.1 wState9' wMatch9 (by rfl)
  exact ⟨h.2.2.2.1, h.2.2.2.2.1, h.2.2.1⟩

/-! ### C2: no prior-status guard in `updateMatchStatus` -/

/-- **C2** (evidence of the missing guard).  In a state whose only match
is still `pending`, the owner's `'completed'` transition silently
succeeds: the call returns `ok` with the match marked `completed` and
even cascades the project to `completed`, although the claim requires
any transition from a non-`accepted` state to fail. -/
theorem updateMatchStatus_completed_without_guard :
    wState9.project_matches.map ProjectMatch.status = [.pending] ∧
    (updateMatchStatus wState9 "m1" "s1" .completed "t1").2 =
      .ok ⟨"m1", "p1", "c1", 1, .completed, none, none, "t0", "t1"⟩ ∧
    (updateMatchStatus wState9 "m1" "s1" .completed "t1").1.projects.map Project.status =
      [.completed] :=
  ⟨rfl, rfl, rfl⟩

/-! ### C4: how a project's status can change -/

/-- A patch that only sets the status field (to `cancelled`). -/
def wPatch4 : ProjectPatch := ⟨none, none, none, none, none, some .cancelled⟩

/-- **C4** (counterexample).  `updateProject` invoked by the owning SME
with a `status` field does change the project's status — to `cancelled`
here, which no lifecycle cascade ever produces. -/
theorem updateProject_changes_status :
    wState9.projects.map Project.status = [.open_] ∧
    (updateProject wState9 "p1" "s1" wPatch4 "t1").1.projects.map Project.status =
      [.cancelled] ∧
    (updateProject wState9 "p1" "s1" wPatch4 "t1").2 =
      .ok ⟨"p1", "s1", "T", "D", "R", none, none, .cancelled, "t0", "t1"⟩ :=
  ⟨rfl, rfl, rfl⟩

/-- The projects table after `createProject`: the old rows plus the new
`open` project. -/
theorem createProject_projects (s : DBState) (smeId : String) (pd : ProjectData)
    (projectId : String) (matchIds : List String) (now : String) :
    (createProject s smeId pd projectId matchIds now).1.projects =
      s.projects ++ [⟨projectId, smeId, pd.title, pd.description, pd.requirements,
        pd.budget, pd.deadline, .open_, now, now⟩] := by
  simp only [createProject]
  split <;> rfl

/-- The projects table rewritten by a successful `updateProject`. -/
def patchedProjects (s : DBState) (projectId : String) (patch : ProjectPatch)
    (now : String) : List Project :=
  s.projects.map (fun p => if p.id = projectId then applyPatch patch now p else p)

/-- The state after `updateProject`: unchanged on a failed ownership
check, otherwise the patch applied to the rows with the given id. -/
theorem updateProject_fst (s : DBState) (projectId smeId : String)
    (patch : ProjectPatch) (now : String) :
    (updateProject s projectId smeId patch now).1 =
      (match s.projects.find? (fun p => decide (p.id = projectId ∧ p.sme_id = smeId)) with
       | none => s
       | some _ => { s with projects := patchedProjects s projectId patch now }) := by
  simp only [updateProject, patchedProjects]
  split
  · rfl
  · split <;> rfl

/-- The state after `deleteProject`: unchanged on a failed ownership
check, otherwise the project's matches and the project removed. -/
theorem deleteProject_fst (s : DBState) (projectId smeId : String) :
    (deleteProject s projectId smeId).1 =
      (match s.projects.find? (fun p => decide (p.id = projectId ∧ p.sme_id = smeId)) with
       | none => s
       | some _ => { s with
           project_matches := s.project_matches.filter (fun pm => decide (pm.project_id ≠ projectId)),
           projects := s.projects.filter (fun p => decide (p.id ≠ projectId)) }) := by
  simp only [deleteProject]
  split <;> rfl

/-- `submitProposal` never touches the projects table. -/
theorem submitProposal_projects (s : DBState) (matchId consultantId proposal : String)
    (price : ℚ) (now : String) :
    (submitProposal s matchId consultantId proposal price now).1.projects = s.projects := by
  simp only [submitProposal]
  split
  · rfl
  · split
    · rfl
    · split <;> rfl

/-- The match rows after the unconditional status write of
`updateMatchStatus`. -/
def statusWrittenMatches (s : DBState) (matchId : String) (status : UpdStatus)
    (now : String) : List ProjectMatch :=
  s.project_matches.map (fun pm =>
    if pm.id = matchId then { pm with status := status.toMStatus, updated_at := now }
    else pm)

/-- The projects table after the cascade of an accepted match. -/
def acceptedProjects (s : DBState) (projectId : String) (now : String) : List Project :=
  s.projects.map (fun p =>
    if p.id = projectId then { p with status := .in_progress, updated_at := now } else p)

/-- The projects table after the cascade of a completed match. -/
def completedProjects (s : DBState) (projectId : String) (now : String) : List Project :=
  s.projects.map (fun p =>
    if p.id = projectId then { p with status := .completed, updated_at := now } else p)

/-- The match rows after the sibling auto-rejection cascade. -/
def rejectedSiblings (rows : List ProjectMatch) (projectId matchId : String)
    (now : String) : List ProjectMatch :=
  rows.map (fun pm =>
    if pm.project_id = projectId ∧ pm.id ≠ matchId ∧ pm.status = MStatus.pending then
      { pm with status := .rejected, updated_at := now }
    else pm)

/-- The state after `updateMatchStatus`: unchanged on a failed lookup,
otherwise the status write plus the two cascades. -/
theorem updateMatchStatus_fst (s : DBState) (matchId smeId : String)
    (status : UpdStatus) (now : String) :
    (updateMatchStatus s matchId smeId status now).1 =
      (match s.project_matches.find? (fun pm =>
          decide (pm.id = matchId) &&
            s.projects.any (fun p => decide (p.id = pm.project_id ∧ p.sme_id = smeId))) with
       | none => s
       | some existingMatch =>
         { s with
           projects :=
             if status = UpdStatus.accepted then
               acceptedProjects s existingMatch.project_id now
             else if status = UpdStatus.completed then
               completedProjects s existingMatch.project_id now
             else s.projects,
           project_matches :=
             if status = UpdStatus.accepted then
               rejectedSiblings (statusWrittenMatches s matchId status now)
                 existingMatch.project_id matchId now
             else statusWrittenMatches s matchId status now }) := by
  simp only [updateMatchStatus, statusWrittenMatches, acceptedProjects,
    completedProjects, rejectedSiblings]
  split
  · rfl
  · split <;> rfl

/-- Two project rows of a table with duplicate-free ids are equal once
their ids agree. -/
theorem project_eq_of_id_eq {l : List Project}
    (h : (l.map Project.id).Nodup) {a b : Project}
    (ha : a ∈ l) (hb : b ∈ l) (hid : a.id = b.id) : a = b :=
  List.inj_on_of_nodup_map h ha hb hid

/-- **C4** (amended).  Under duplicate-free project ids, a single core
operation changes a stored project's status only through the §4.5
cascades — `updateMatchStatus 'accepted'` (to `in_progress`) or
`updateMatchStatus 'completed'` (to `completed`) — or through
`updateProject` invoked with an explicit `status` field; `createProject`,
`deleteProject`, `submitProposal` and status-free `updateProject` calls
never change an existing project's status. -/
theorem project_status_change_sources (s : DBState) (op : Op) (s' : DBState)
    (hnd : (s.projects.map Project.id).Nodup)
    (hstep : Step s op s') :
    ∀ p' ∈ s'.projects, ∀ p ∈ s.projects, p'.id = p.id → p'.status ≠ p.status →
      (∃ matchId smeId now, op = .updateMatchStatus matchId smeId .accepted now ∧
        p'.status = .in_progress) ∨
      (∃ matchId smeId now, op = .updateMatchStatus matchId smeId .completed now ∧
        p'.status = .completed) ∨
      (∃ smeId patch now, op = .updateProject p.id smeId patch now ∧
        patch.status = some p'.status) := by
  obtain ⟨hids, rfl⟩ := hstep
  intro p' hp' p hp hid hst
  cases op with
  | createProject smeId pd projectId matchIds now =>
    exfalso
    simp only [applyOp] at hp'
    rw [createProject_projects] at hp'
    rcases List.mem_append.mp hp' with h | h
    · exact hst (congrArg Project.status (project_eq_of_id_eq hnd h hp hid))
    · obtain ⟨hfresh, -, -, -⟩ := hids
      rw [List.mem_singleton.mp h] at hid
      exact hfresh (List.mem_map.mpr ⟨p, hp, hid.symm⟩)
  | updateProject projectId smeId patch now =>
    simp only [applyOp] at hp'
    rw [updateProject_fst] at hp'
    cases hf : s.projects.find?
        (fun q => decide (q.id = projectId ∧ q.sme_id = smeId)) with
    | none =>
      rw [hf] at hp'
      exact absurd (congrArg Project.status (project_eq_of_id_eq hnd hp' hp hid)) hst
    | some p0 =>
      rw [hf] at hp'
      obtain ⟨q, hq, rfl⟩ := List.mem_map.mp hp'
      by_cases hq0 : q.id = projectId
      · rw [if_pos hq0] at hid hst ⊢
        have hqp : q = p := project_eq_of_id_eq hnd hq hp hid
        subst hqp
        cases hps : patch.status with
        | none =>
          exact absurd (show (applyPatch patch now q).status = q.status by
            simp [applyPatch, hps]) hst
        | some st =>
          refine Or.inr (Or.inr ⟨smeId, patch, now, ?_, ?_⟩)
          · rw [← hq0]
          · rw [hps]
            exact congrArg some (by simp [applyPatch, hps])
      · rw [if_neg hq0] at hid hst
        exact absurd (congrArg Project.status (project_eq_of_id_eq hnd hq hp hid)) hst
  | deleteProject projectId smeId =>
    exfalso
    simp only [applyOp] at hp'
    rw [deleteProject_fst] at hp'
    cases hf : s.projects.find?
        (fun q => decide (q.id = projectId ∧ q.sme_id = smeId)) with
    | none =>
      rw [hf] at hp'
      exact hst (congrArg Project.status (project_eq_of_id_eq hnd hp' hp hid))
    | some p0 =>
      rw [hf] at hp'
      exact hst (congrArg Project.status
        (project_eq_of_id_eq hnd (List.mem_of_mem_filter hp') hp hid))
  | submitProposal matchId consultantId proposal price now =>
    exfalso
    simp only [applyOp] at hp'
    rw [submitProposal_projects] at hp'
    exact hst (congrArg Project.status (project_eq_of_id_eq hnd hp' hp hid))
  | updateMatchStatus matchId smeId status now =>
    simp only [applyOp] at hp'
    rw [updateMatchStatus_fst] at hp'
    cases hf : s.project_matches.find? (fun pm =>
        decide (pm.id = matchId) &&
          s.projects.any (fun q => decide (q.id = pm.project_id ∧ q.sme_id = smeId))) with
    | none =>
      rw [hf] at hp'
      exact absurd (congrArg Project.status (project_eq_of_id_eq hnd hp' hp hid)) hst
    | some em =>
      rw [hf] at hp'
      cases status with
      | accepted =>
        simp only [reduceCtorEq, if_true, if_false, reduceIte] at hp'
        obtain ⟨q, hq, rfl⟩ := List.mem_map.mp hp'
        by_cases hq0 : q.id = em.project_id
        · rw [if_pos hq0]
          exact Or.inl ⟨matchId, smeId, now, rfl, rfl⟩
        · rw [if_neg hq0] at hid hst
          exact absurd (congrArg Project.status (project_eq_of_id_eq hnd hq hp hid)) hst
      | completed =>
        simp only [reduceCtorEq, if_true, if_false, reduceIte] at hp'
        obtain ⟨q, hq, rfl⟩ := List.mem_map.mp hp'
        by_cases hq0 : q.id = em.project_id
        · rw [if_pos hq0]
          exact Or.inr (Or.inl ⟨matchId, smeId, now, rfl, rfl⟩)
        · rw [if_neg hq0] at hid hst
          exact absurd (congrArg Project.status (project_eq_of_id_eq hnd hq hp hid)) hst
      | rejected =>
        simp only [reduceCtorEq, if_true, if_false, reduceIte] at hp'
        exact absurd (congrArg Project.status (project_eq_of_id_eq hnd hp' hp hid)) hst

/-- The project row after the C4 witness call. -/
def wProjCancelled : Project :=
  ⟨"p1", "s1", "T", "D", "R", none, none, .cancelled, "t0", "t1"⟩

/-- The project row before the C4 witness call. -/
def wProjOpen : Project :=
  ⟨"p1", "s1", "T", "D", "R", none, none, .open_, "t0", "t0"⟩

/-- Witness for the amended C4 at a concrete step. -/
theorem project_status_change_sources_witness :
    (∃ matchId smeId now, Op.updateProject "p1" "s1" wPatch4 "t1" =
        Op.updateMatchStatus matchId smeId .accepted now ∧
      wProjCancelled.status = PStatus.in_progress) ∨
    (∃ matchId smeId now, Op.updateProject "p1" "s1" wPatch4 "t1" =
        Op.updateMatchStatus matchId smeId .completed now ∧
      wProjCancelled.status = PStatus.completed) ∨
    (∃ smeId patch now, Op.updateProject "p1" "s1" wPatch4 "t1" =
        Op.updateProject wProjOpen.id smeId patch now ∧
      patch.status = some wProjCancelled.status) :=
  project_status_change_sources wState9 (.updateProject "p1" "s1" wPatch4 "t1") _
    (by simp [wState9]) ⟨trivial, rfl⟩ wProjCancelled (by decide) wProjOpen (by decide)
    rfl (by decide)

/-! ### C1: the `accepted` cascade -/

/-- **C1** (amended).  Under duplicate-free match ids, when
`updateMatchStatus(…, 'accepted')` succeeds from a state in which no
*other* match of the target's project is already `accepted`, then
afterwards exactly one match of that project is `accepted` (the target),
every sibling that was `pending` is `rejected`, and the project's status
is `in_progress`. -/
theorem updateMatchStatus_accepted_exclusive (s : DBState) (matchId smeId now : String)
    (s' : DBState) (m' : ProjectMatch)
    (hnd : (s.project_matches.map ProjectMatch.id).Nodup)
    (heq : updateMatchStatus s matchId smeId .accepted now = (s', .ok m'))
    (hsib : ∀ r ∈ s.project_matches, r.project_id = m'.project_id → r.id ≠ matchId →
      r.status ≠ .accepted) :
    m'.id = matchId ∧ m'.status = .accepted ∧
    s'.project_matches.countP (fun r =>
      decide (r.project_id = m'.project_id ∧ r.status = MStatus.accepted)) = 1 ∧
    (∀ r ∈ s.project_matches, r.project_id = m'.project_id → r.id ≠ matchId →
      r.status = .pending →
      ∀ r' ∈ s'.project_matches, r'.id = r.id → r'.status = .rejected) ∧
    (∀ p ∈ s'.projects, p.id = m'.project_id → p.status = .in_progress) := by
  cases hf : s.project_matches.find? (fun pm =>
      decide (pm.id = matchId) &&
        s.projects.any (fun q => decide (q.id = pm.project_id ∧ q.sme_id = smeId))) with
  | none =>
    exfalso
    simp only [updateMatchStatus, hf, Prod.mk.injEq] at heq
    exact absurd heq.2 (by simp)
  | some em =>
    have hemid : em.id = matchId := by
      have := List.find?_some hf
      simp only [Bool.and_eq_true, decide_eq_true_eq] at this
      exact this.1
    have hemmem := List.mem_of_find?_eq_some hf
    -- names for the two write stages
    set f : ProjectMatch → ProjectMatch := fun pm =>
      if pm.id = matchId then { pm with status := MStatus.accepted, updated_at := now }
      else pm with hfdef
    set g : ProjectMatch → ProjectMatch := fun pm =>
      if pm.project_id = em.project_id ∧ pm.id ≠ matchId ∧ pm.status = MStatus.pending then
        { pm with status := MStatus.rejected, updated_at := now }
      else pm with hgdef
    have hfid : ∀ r, (f r).id = r.id := by
      intro r
      by_cases h : r.id = matchId <;> simp [hfdef, h]
    have hgid : ∀ r, (g r).id = r.id := by
      intro r
      by_cases h : r.project_id = em.project_id ∧ r.id ≠ matchId ∧ r.status = MStatus.pending <;>
        simp [hgdef, h]
    have hfem : f em = { em with status := MStatus.accepted, updated_at := now } := by
      simp [hfdef, hemid]
    have hgfem : g (f em) = f em := by
      rw [hfem]
      simp [hgdef, hemid]
    -- the updated row is found again
    have hfind2 : ((s.project_matches.map f).map g).find?
        (fun pm => decide (pm.id = matchId)) = some (g (f em)) := by
      apply find?_eq_some_of_mem_unique
      · exact List.mem_map.mpr ⟨f em, List.mem_map.mpr ⟨em, hemmem, rfl⟩, rfl⟩
      · simp [hgid, hfid, hemid]
      · intro x hx hpx
        obtain ⟨y, hy, rfl⟩ := List.mem_map.mp hx
        obtain ⟨r0, hr0, rfl⟩ := List.mem_map.mp hy
        simp only [decide_eq_true_eq, hgid, hfid] at hpx
        rw [match_eq_of_id_eq hnd hr0 hemmem (hpx.trans hemid.symm)]
    have heq' : updateMatchStatus s matchId smeId .accepted now =
        ({ s with
            projects := s.projects.map (fun p =>
              if p.id = em.project_id then { p with status := .in_progress, updated_at := now }
              else p),
            project_matches := (s.project_matches.map f).map g }, .ok (g (f em))) := by
      simp only [updateMatchStatus, hf, hfdef, hgdef]
      simp only [reduceIte, UpdStatus.toMStatus, hfind2, hfdef, hgdef]
    rw [heq'] at heq
    obtain ⟨hs', hm'⟩ := Prod.mk.injEq .. ▸ heq
    have hm'' : m' = g (f em) := (Except.ok.inj hm').symm
    subst hs'
    have hm'row : m' = { em with status := MStatus.accepted, updated_at := now } := by
      rw [hm'', hgfem, hfem]
    have hm'pid : m'.project_id = em.project_id := by rw [hm'row]
    refine ⟨by rw [hm'row]; exact hemid, by rw [hm'row], ?_, ?_, ?_⟩
    · -- exactly one accepted match of the project
      rw [List.map_map, List.countP_map]
      have hpt : ∀ r ∈ s.project_matches,
          (((fun r => decide (r.project_id = m'.project_id ∧ r.status = MStatus.accepted)) ∘
            (g ∘ f)) r = true ↔ decide (r.id = matchId) = true) := by
        intro r hr
        by_cases hrid : r.id = matchId
        · have : r = em := match_eq_of_id_eq hnd hr hemmem (hrid.trans hemid.symm)
          subst this
          simp only [Function.comp_apply]
          simp only [hgfem]
          simp only [hfem]
          simp [hm'pid, hrid]
        · have hfr : f r = r := by simp [hfdef, hrid]
          by_cases hc : r.project_id = em.project_id ∧ r.id ≠ matchId ∧
              r.status = MStatus.pending
          · simp only [Function.comp_apply, hfr, hgdef, if_pos hc]
            simp [hrid, hm'pid]
          · have hgr : g r = r := by simp only [hgdef, if_neg hc]
            simp only [Function.comp_apply, hfr, hgr]
            have hnot : ¬(r.project_id = m'.project_id ∧ r.status = MStatus.accepted) := by
              rintro ⟨hpid, hacc⟩
              exact hsib r hr hpid hrid hacc
            simp [hnot, hrid]
      rw [List.countP_congr hpt]
      have : s.project_matches.countP (fun r => decide (r.id = matchId)) =
          (s.project_matches.map ProjectMatch.id).count matchId := by
        rw [List.count_eq_countP, List.countP_map]
        apply List.countP_congr
        intro r _
        simp [Function.comp_apply]
      rw [this]
      exact List.count_eq_one_of_mem hnd
        (List.mem_map.mpr ⟨em, hemmem, hemid⟩)
    · -- previously pending siblings are rejected
      intro r hr hpid hrid hpend r' hr' hid'
      rw [List.map_map] at hr'
      obtain ⟨r0, hr0, rfl⟩ := List.mem_map.mp hr'
      have hr0id : r0.id = r.id := by
        have := hid'
        simpa [Function.comp_apply, hgid, hfid] using this
      have : r0 = r := match_eq_of_id_eq hnd hr0 hr hr0id
      subst this
      have hfr : f r0 = r0 := by simp [hfdef, hrid]
      have hc : r0.project_id = em.project_id ∧ r0.id ≠ matchId ∧
          r0.status = MStatus.pending := ⟨by rw [← hm'pid]; exact hpid, hrid, hpend⟩
      simp only [Function.comp_apply, hfr, hgdef, if_pos hc]
    · -- the project is in progress
      intro p hp hpid
      obtain ⟨q, hq, rfl⟩ := List.mem_map.mp hp
      by_cases hq0 : q.id = em.project_id
      · simp [if_pos hq0]
      · rw [if_neg hq0] at hpid ⊢
        exact absurd (hpid.trans hm'pid) hq0

/-! ### A concrete double-accept trace (used against C1 and C3) -/

/-- A pool of two consultants with 15 years of experience and no
expertise tags: both score `0.4` for any project with an empty keyword
set. -/
def cPool : List Consultant := [⟨"c1", [], 15⟩, ⟨"c2", [], 15⟩]

/-- The data of a project whose three text fields hold no token longer
than 3 characters (empty keyword set). -/
def cData1 : ProjectData := ⟨"Eco", "fix", "now", none, none⟩

/-- Ten fresh match ids for the trace's `createProject`. -/
def cMids : List String :=
  ["n1", "n2", "n3", "n4", "n5", "n6", "n7", "n8", "n9", "n10"]

/-- The project row created by the trace. -/
def cProj1 : Project := ⟨"p1", "s1", "Eco", "fix", "now", none, none, .open_, "t1", "t1"⟩

/-- The two match rows generated by the trace's `createProject`. -/
def cRow1 : ProjectMatch := ⟨"n1", "p1", "c1", 2/5, .pending, none, none, "t1", "t1"⟩

/-- Second generated match row. -/
def cRow2 : ProjectMatch := ⟨"n2", "p1", "c2", 2/5, .pending, none, none, "t1", "t1"⟩

/-- Evaluation of the trace's match generation. -/
theorem cGen_eval : generateProjectMatches cPool cProj1 cMids "t1" = [cRow1, cRow2] := by
  have hkw : extractKeywords ("Eco" ++ " " ++ "fix" ++ " " ++ "now") = [] := by decide
  have hnil : calculateExpertiseMatch [] [] = 0 := by
    simp [calculateExpertiseMatch]
  have hexp : calculateExperienceScore 15 = 1 := by
    norm_num [calculateExperienceScore]
  have hfl : ⌊(2:ℚ)/5 * 100 + 1/2⌋ = 40 := by
    rw [Int.floor_eq_iff]
    norm_num
  have hr2 : round2 ((2:ℚ)/5) = 2/5 := by
    rw [round2, hfl]
    norm_num
  norm_num [generateProjectMatches, cPool, cProj1, cMids, cRow1, cRow2, hkw, hnil,
    hexp, hr2, List.filterMap_cons, List.insertionSort, List.orderedInsert, scoreGE,
    List.zip_cons_cons]

/-- The first trace operation: create the project. -/
def cOp1 : Op := .createProject "s1" cData1 "p1" cMids "t1"

/-- The trace states after each operation. -/
def cState1 : DBState := applyOp ⟨[], [], cPool⟩ cOp1

/-- State after accepting match `n1`. -/
def cState2 : DBState := applyOp cState1 (.updateMatchStatus "n1" "s1" .accepted "t2")

/-- State after then also accepting match `n2`. -/
def cState3 : DBState := applyOp cState2 (.updateMatchStatus "n2" "s1" .accepted "t3")

/-- Evaluation of the first trace state. -/
theorem cState1_eval : cState1 = ⟨[cProj1], [cRow1, cRow2], cPool⟩ := by
  simp only [cState1, cOp1, applyOp, createProject, cData1, List.append_nil,
    List.nil_append, List.find?]
  norm_num [cProj1]
  simpa only [cProj1] using cGen_eval

/-- Evaluation of the second trace state: `n1` accepted, `n2`
auto-rejected, project in progress. -/
theorem cState2_eval : cState2 =
    ⟨[⟨"p1", "s1", "Eco", "fix", "now", none, none, .in_progress, "t1", "t2"⟩],
     [⟨"n1", "p1", "c1", 2/5, .accepted, none, none, "t1", "t2"⟩,
      ⟨"n2", "p1", "c2", 2/5, .rejected, none, none, "t1", "t2"⟩], cPool⟩ := by
  rw [cState2, cState1_eval]
  rfl

/-- Evaluation of the third trace state: accepting the already-rejected
`n2` also succeeds, leaving both matches `accepted`. -/
theorem cState3_eval : cState3 =
    ⟨[⟨"p1", "s1", "Eco", "fix", "now", none, none, .in_progress, "t1", "t3"⟩],
     [⟨"n1", "p1", "c1", 2/5, .accepted, none, none, "t1", "t2"⟩,
      ⟨"n2", "p1", "c2", 2/5, .accepted, none, none, "t1", "t3"⟩], cPool⟩ := by
  rw [cState3, cState2_eval]
  rfl

/-- The generated ids of the trace's `createProject` are fresh. -/
theorem cOp1_idsOk : idsOk ⟨[], [], cPool⟩ cOp1 :=
  ⟨by simp, by simp [cMids], by simp, by simp [cMids]⟩

/-- **C3** (evidence of the broken invariant).  A state with *two*
`accepted` matches for the same project is reachable by core operations
alone: create a project matching two consultants, accept the first
match, then accept the second (the code never checks that the second
match is still `pending`). -/
theorem two_accepted_matches_reachable :
    Reachable cPool cState3 ∧
    cState3.project_matches.countP (fun r =>
      decide (r.project_id = "p1" ∧ r.status = MStatus.accepted)) = 2 := by
  constructor
  · exact Reachable.step (Reachable.step (Reachable.step Reachable.init cOp1_idsOk)
      trivial) trivial
  · rw [cState3_eval]
    rfl

/-- **C1** (counterexample).  From the reachable state in which `n1` is
already `accepted` (and `n2` `rejected`), a further successful call
`updateMatchStatus(n2, owner, 'accepted')` leaves *two* matches of the
project `accepted` — not exactly one as the claim states. -/
theorem accept_after_accept_two_accepted :
    Reachable cPool cState2 ∧
    (updateMatchStatus cState2 "n2" "s1" .accepted "t3").2 =
      .ok ⟨"n2", "p1", "c2", 2/5, .accepted, none, none, "t1", "t3"⟩ ∧
    (updateMatchStatus cState2 "n2" "s1" .accepted "t3").1.project_matches.countP
      (fun r => decide (r.project_id = "p1" ∧ r.status = MStatus.accepted)) = 2 := by
  refine ⟨Reachable.step (Reachable.step Reachable.init cOp1_idsOk) trivial, ?_, ?_⟩
  · rw [cState2_eval]
    rfl
  · rw [cState2_eval]
    rfl

/-- The pre state of the C1 witness: one project, two pending matches. -/
def wStateA : DBState :=
  ⟨[⟨"p1", "s1", "T", "D", "R", none, none, .open_, "t0", "t0"⟩],
   [⟨"mA", "p1", "c1", 1, .pending, none, none, "t0", "t0"⟩,
    ⟨"mB", "p1", "c2", 1, .pending, none, none, "t0", "t0"⟩],
   []⟩

/-- The post state of the C1 witness call. -/
def wStateA' : DBState :=
  ⟨[⟨"p1", "s1", "T", "D", "R", none, none, .in_progress, "t0", "t1"⟩],
   [⟨"mA", "p1", "c1", 1, .accepted, none, none, "t0", "t1"⟩,
    ⟨"mB", "p1", "c2", 1, .rejected, none, none, "t0", "t1"⟩],
   []⟩

/-- The match returned by the C1 witness call. -/
def wMatchA : ProjectMatch :=
  ⟨"mA", "p1", "c1", 1, .accepted, none, none, "t0", "t1"⟩

/-- Witness for the amended C1 at a concrete state. -/
theorem updateMatchStatus_accepted_exclusive_witness :
    wMatchA.id = "mA" ∧ wMatchA.status = .accepted ∧
    wStateA'.project_matches.countP (fun r =>
      decide (r.project_id = wMatchA.project_id ∧ r.status = MStatus.accepted)) = 1 := by
  have h := updateMatchStatus_accepted_exclusive wStateA "mA" "s1" "t1" wStateA' wMatchA
    (by simp [wStateA]) (by rfl) (by decide)
  exact ⟨h.1, h.2.1, h.2.2.1⟩

/-! ### C10: inclusion when the keyword set is empty -/

/-- With no project keywords the expertise fraction is `0`. -/
theorem calculateExpertiseMatch_nil (expertise : List String) :
    calculateExpertiseMatch expertise [] = 0 := by
  simp [calculateExpertiseMatch]

/-- With no keywords the combined score is `0.4 · experienceScore`, the
`0.30` threshold is met exactly at experience score `≥ 0.8`, which holds
exactly at `≥ 7` years. -/
theorem experienceScore_threshold (y : ℕ) :
    ((3:ℚ)/10 ≤ calculateExperienceScore y * (4/10) ↔
      8/10 ≤ calculateExperienceScore y) ∧
    (8/10 ≤ calculateExperienceScore y ↔ 7 ≤ y) := by
  unfold calculateExperienceScore
  split_ifs <;>
    refine ⟨by norm_num, ⟨fun h => ?_, fun h => ?_⟩⟩ <;>
    first | omega | (exfalso; revert h; norm_num; done) | (norm_num; done)

/-- Every candidate of a pool of at most 10 (with enough fresh ids)
receives a persisted row carrying its consultant id. -/
theorem candidate_row_exists (cands : List RankedCandidate) (matchIds : List String)
    (pid now : String) (cand : RankedCandidate) (h : cand ∈ cands)
    (h10 : cands.length ≤ 10) (hm : cands.length ≤ matchIds.length) :
    ∃ m ∈ (((List.insertionSort scoreGE cands).take 10).zip matchIds).map (fun cm =>
      ({ id := cm.2, project_id := pid, consultant_id := cm.1.consultant_id,
         match_score := cm.1.match_score, status := .pending, proposal := none,
         price := none, created_at := now, updated_at := now } : ProjectMatch)),
      m.consultant_id = cand.consultant_id := by
  have hsort := (List.perm_insertionSort scoreGE cands).mem_iff.mpr h
  have hlen2 : (List.insertionSort scoreGE cands).length ≤ 10 := by
    rw [(List.perm_insertionSort scoreGE cands).length_eq]
    exact h10
  have hlen3 : (List.insertionSort scoreGE cands).length ≤ matchIds.length := by
    rw [(List.perm_insertionSort scoreGE cands).length_eq]
    exact hm
  rw [List.take_of_length_le hlen2]
  have hfst := List.map_fst_zip (List.insertionSort scoreGE cands) matchIds hlen3
  rw [← hfst] at hsort
  obtain ⟨pair, hpair, hp1⟩ := List.mem_map.mp hsort
  exact ⟨_, List.mem_map.mpr ⟨pair, hpair, rfl⟩, by rw [hp1]⟩

/-- **C10** (amended).  For a project whose concatenated text yields an
empty keyword set, a consultant's combined score reduces to
`0.4 · experienceScore` and passes the `0.30` threshold iff the
experience score is `≥ 0.8`, i.e. iff `experience_years ≥ 7`; and
whenever the pool has at most 10 consultants (with distinct ids and
enough fresh match ids), a consultant receives a persisted match iff
`experience_years ≥ 7`.  (With more than 10 qualifying consultants the
top-10 truncation drops qualifying consultants, so the unrestricted
"iff" of the claim fails.) -/
theorem generateProjectMatches_emptyKeywords (consultants : List Consultant)
    (project : Project) (matchIds : List String) (now : String)
    (hkw : extractKeywords
      (project.title ++ " " ++ project.description ++ " " ++ project.requirements) = [])
    (hnd : (consultants.map Consultant.id).Nodup)
    (hlen : consultants.length ≤ 10)
    (hmids : consultants.length ≤ matchIds.length) :
    ∀ c ∈ consultants,
      (calculateExpertiseMatch c.expertise (extractKeywords
          (project.title ++ " " ++ project.description ++ " " ++ project.requirements)) * (6/10) +
        calculateExperienceScore c.experience_years * (4/10) =
        calculateExperienceScore c.experience_years * (4/10)) ∧
      ((3/10 ≤ calculateExperienceScore c.experience_years * (4/10)) ↔
        8/10 ≤ calculateExperienceScore c.experience_years) ∧
      ((8/10 ≤ calculateExperienceScore c.experience_years) ↔ 7 ≤ c.experience_years) ∧
      ((∃ m ∈ generateProjectMatches consultants project matchIds now,
          m.consultant_id = c.id) ↔ 7 ≤ c.experience_years) := by
  intro c hc
  have hzero : ∀ c' : Consultant, calculateExpertiseMatch c'.expertise (extractKeywords
      (project.title ++ " " ++ project.description ++ " " ++ project.requirements)) * (6/10) +
      calculateExperienceScore c'.experience_years * (4/10) =
      calculateExperienceScore c'.experience_years * (4/10) := by
    intro c'
    rw [hkw, calculateExpertiseMatch_nil]
    ring
  refine ⟨hzero c, (experienceScore_threshold c.experience_years).1,
    (experienceScore_threshold c.experience_years).2, ?_⟩
  constructor
  · rintro ⟨m, hm, hmc⟩
    simp only [generateProjectMatches] at hm
    obtain ⟨⟨cand, mid⟩, hpair, rfl⟩ := List.mem_map.mp hm
    have h1 := (List.of_mem_zip hpair).1
    have h2 := List.take_subset _ _ h1
    have h3 : cand ∈ consultants.filterMap _ :=
      (List.Perm.mem_iff (List.perm_insertionSort scoreGE _)).mp h2
    obtain ⟨c', hc', hfc⟩ := List.mem_filterMap.mp h3
    by_cases hth : (3 : ℚ)/10 ≤
        calculateExpertiseMatch c'.expertise (extractKeywords
          (project.title ++ " " ++ project.description ++ " " ++ project.requirements)) * (6/10) +
        calculateExperienceScore c'.experience_years * (4/10)
    · rw [if_pos hth] at hfc
      obtain rfl := Option.some_injective _ hfc
      have hcc : c' = c := List.inj_on_of_nodup_map hnd hc' hc hmc
      subst hcc
      rw [hzero c'] at hth
      exact (experienceScore_threshold c'.experience_years).2.mp
        ((experienceScore_threshold c'.experience_years).1.mp hth)
    · rw [if_neg hth] at hfc
      exact absurd hfc (by simp)
  · intro h7
    have hth : (3 : ℚ)/10 ≤
        calculateExpertiseMatch c.expertise (extractKeywords
          (project.title ++ " " ++ project.description ++ " " ++ project.requirements)) * (6/10) +
        calculateExperienceScore c.experience_years * (4/10) := by
      rw [hzero c]
      exact (experienceScore_threshold c.experience_years).1.mpr
        ((experienceScore_threshold c.experience_years).2.mpr h7)
    simp only [generateProjectMatches]
    refine candidate_row_exists _ matchIds project.id now
      ⟨c.id, round2 (calculateExpertiseMatch c.expertise (extractKeywords
        (project.title ++ " " ++ project.description ++ " " ++ project.requirements)) * (6/10) +
        calculateExperienceScore c.experience_years * (4/10))⟩ ?_ ?_ ?_
    · exact List.mem_filterMap.mpr ⟨c, hc, by rw [if_pos hth]⟩
    · exact le_trans (List.length_filterMap_le _ _) hlen
    · exact le_trans (List.length_filterMap_le _ _) hmids

/-- Eleven consultants, each with 15 years of experience and no
expertise tags: all qualify for any empty-keyword project. -/
def dPool : List Consultant :=
  [⟨"d1", [], 15⟩, ⟨"d2", [], 15⟩, ⟨"d3", [], 15⟩, ⟨"d4", [], 15⟩,
   ⟨"d5", [], 15⟩, ⟨"d6", [], 15⟩, ⟨"d7", [], 15⟩, ⟨"d8", [], 15⟩,
   ⟨"d9", [], 15⟩, ⟨"d10", [], 15⟩, ⟨"d11", [], 15⟩]

/-- One generated row of the C10 counterexample pool. -/
def dRow (cid mid : String) : ProjectMatch :=
  ⟨mid, "p1", cid, 2/5, .pending, none, none, "t1", "t1"⟩

/-- Evaluation of match generation over the eleven-consultant pool: the
top-10 truncation keeps only the first ten. -/
theorem dGen_eval : generateProjectMatches dPool cProj1 cMids "t1" =
    [dRow "d1" "n1", dRow "d2" "n2", dRow "d3" "n3", dRow "d4" "n4",
     dRow "d5" "n5", dRow "d6" "n6", dRow "d7" "n7", dRow "d8" "n8",
     dRow "d9" "n9", dRow "d10" "n10"] := by
  have hkw : extractKeywords ("Eco" ++ " " ++ "fix" ++ " " ++ "now") = [] := by decide
  have hnil : calculateExpertiseMatch [] [] = 0 := by
    simp [calculateExpertiseMatch]
  have hexp : calculateExperienceScore 15 = 1 := by
    norm_num [calculateExperienceScore]
  have hfl : ⌊(2:ℚ)/5 * 100 + 1/2⌋ = 40 := by
    rw [Int.floor_eq_iff]
    norm_num
  have hr2 : round2 ((2:ℚ)/5) = 2/5 := by
    rw [round2, hfl]
    norm_num
  norm_num [generateProjectMatches, dPool, cProj1, cMids, dRow, hkw, hnil,
    hexp, hr2, List.filterMap_cons, List.insertionSort, List.orderedInsert, scoreGE,
    List.zip_cons_cons]

/-- **C10** (counterexample).  With eleven consultants all at
`experience_years = 15 ≥ 7` and an empty-keyword project, match
generation persists only ten rows: consultant `d11` has
`experience_years ≥ 7` but is *not* included, so "included iff
`experience_years ≥ 7`" fails as stated. -/
theorem generateProjectMatches_emptyKeywords_counterexample :
    (⟨"d11", [], 15⟩ : Consultant) ∈ dPool ∧
    dPool.countP (fun c => decide (7 ≤ c.experience_years)) = 11 ∧
    (generateProjectMatches dPool cProj1 cMids "t1").length = 10 ∧
    (generateProjectMatches dPool cProj1 cMids "t1").countP
      (fun m => decide (m.consultant_id = "d11")) = 0 := by
  refine ⟨by simp [dPool], by decide, ?_, ?_⟩
  · rw [dGen_eval]
    rfl
  · rw [dGen_eval]
    rfl

/-- Witness for the amended C10: in a two-consultant pool one consultant
has 15 years (included) — the instantiated conclusion of the amended
theorem at that consultant. -/
theorem generateProjectMatches_emptyKeywords_witness :
    (calculateExpertiseMatch [] (extractKeywords
        (cProj1.title ++ " " ++ cProj1.description ++ " " ++ cProj1.requirements)) * (6/10) +
      calculateExperienceScore 15 * (4/10) =
      calculateExperienceScore 15 * (4/10)) ∧
    ((3/10 ≤ calculateExperienceScore 15 * (4/10)) ↔
      8/10 ≤ calculateExperienceScore 15) ∧
    ((8/10 ≤ calculateExperienceScore 15) ↔ 7 ≤ 15) ∧
    ((∃ m ∈ generateProjectMatches cPool cProj1 cMids "t1",
        m.consultant_id = "c1") ↔ 7 ≤ 15) := by
  exact generateProjectMatches_emptyKeywords cPool cProj1 cMids "t1"
    (by decide) (by simp [cPool]) (by simp [cPool]) (by simp [cPool, cMids])
    ⟨"c1", [], 15⟩ (by simp [cPool])
